import Mathlib

/-!
Verification of the quadruped motion/gait controller (`cleaneduigpt.py`).

The embedding models the servo write surface as a trace of events
(`Ev.write ch a` for `kit.servo[ch].angle = a`, `Ev.sleep` for
`time.sleep(delay)` inside a ramp), and the hardware state as a partial map
from channel to the last commanded (post-inversion) angle, which is exactly
what `kit.servo[ch].angle` reads back.
-/

namespace Robot

/-! ## Channel mapping (cleaneduigpt.py, "Channel Mapping") -/

def LF_HIP  : Nat := 0

def LF_KNEE : Nat := 1

def RF_HIP  : Nat := 8

def RF_KNEE : Nat := 9

def LR_HIP  : Nat := 2

def LR_KNEE : Nat := 3

def RR_HIP  : Nat := 10

def RR_KNEE : Nat := 11

def ALL_HIPS : List Nat := [LF_HIP, RF_HIP, LR_HIP, RR_HIP]

def ALL_KNEES : List Nat := [LF_KNEE, RF_KNEE, LR_KNEE, RR_KNEE]

/-- Diagonal pair A: `DIAG_A = [(LF_HIP, LF_KNEE), (RR_HIP, RR_KNEE)]`. -/
def DIAG_A : List (Nat × Nat) := [(LF_HIP, LF_KNEE), (RR_HIP, RR_KNEE)]

/-- Diagonal pair B: `DIAG_B = [(RF_HIP, RF_KNEE), (LR_HIP, LR_KNEE)]`. -/
def DIAG_B : List (Nat × Nat) := [(RF_HIP, RF_KNEE), (LR_HIP, LR_KNEE)]

/-! ## Tuning constants -/

def HIP_NEUTRAL : Int := 90

def HIP_FWD     : Int := 65

def HIP_BACK    : Int := 145

def KNEE_DOWN   : Int := 124

def KNEE_UP     : Int := 86

def PRESS_DELTA   : Int := 8

def LIGHTEN_DELTA : Int := -6

def RAMP_STEP : Nat := 3

/-- Python dict `INVERT_HIP` maps RF_HIP and RR_HIP to True, the other hips to
False; `invert_map.get(ch, False)` returns False for keys not present. -/
def INVERT_HIP : Nat → Bool := fun ch => ch == RF_HIP || ch == RR_HIP

/-- Python dict `INVERT_KNEE` maps RF_KNEE and RR_KNEE to True, the other knees
to False. -/
def INVERT_KNEE : Nat → Bool := fun ch => ch == RF_KNEE || ch == RR_KNEE

/-! ## Servo state and event traces -/

/-- Hardware-side state: the last angle written to each channel, `none` when the
channel has never been commanded (`kit.servo[ch].angle is None`). -/
def ServoState := Nat → Option Int

def writeServo (σ : ServoState) (ch : Nat) (a : Int) : ServoState :=
  fun c => if c = ch then some a else σ c

/-- One observable action of a ramp: a physical write `kit.servo[ch].angle = a`,
or one `time.sleep(delay)` tick separator. -/
inductive Ev where
  | write (ch : Nat) (a : Int)
  | sleep
deriving DecidableEq, Repr

/-- Replay a trace's writes onto the servo state (each model write is exactly one
`kit.servo[ch].angle = a` in the source). -/
def applyEvents (σ : ServoState) : List Ev → ServoState
  | [] => σ
  | Ev.write ch a :: rest => applyEvents (writeServo σ ch a) rest
  | Ev.sleep :: rest => applyEvents σ rest

/-- The successive values written to channel `ch` in a trace. -/
def writesTo (ch : Nat) : List Ev → List Int
  | [] => []
  | Ev.write c a :: rest => if c = ch then a :: writesTo ch rest else writesTo ch rest
  | Ev.sleep :: rest => writesTo ch rest

def isSleep : Ev → Bool
  | Ev.sleep => true
  | Ev.write _ _ => false

def sleepCount (evs : List Ev) : Nat := evs.countP isSleep

/-! ## Helpers (`_apply_invert`, `_current_angle`) -/

/-- Model of `_apply_invert(ch, angle, invert_map)`: `180 - angle` if inverted
else `angle`. -/
def applyInvert (inv : Nat → Bool) (ch : Nat) (angle : Int) : Int :=
  if inv ch then 180 - angle else angle

/-- Model of `_current_angle(ch, default_raw, invert_map)`: the hardware readback if it is
not `None`, else the inverted form of the caller-supplied raw default. -/
def currentAngle (σ : ServoState) (inv : Nat → Bool) (ch : Nat) (defaultRaw : Int) : Int :=
  match σ ch with
  | some a => a
  | none => applyInvert inv ch defaultRaw

/-! ## Python `range` on integers -/

/-- Number of elements of Python `range(start, stop, stepI)` (for `stepI ≠ 0`). -/
def rangeIntLen (start stop stepI : Int) : Nat :=
  if 0 < stepI then ((stop - start + stepI - 1) / stepI).toNat
  else if stepI < 0 then ((start - stop + (-stepI) - 1) / (-stepI)).toNat
  else 0

/-- Python `range(start, stop, stepI)` as a list. -/
def rangeInt (start stop stepI : Int) : List Int :=
  (List.range (rangeIntLen start stop stepI)).map (fun (k : Nat) => start + stepI * (k : Int))

/-! ## `_ramp_to` (single-channel ramp) -/

/-- Trace of `_ramp_to(ch, target_raw, invert_map, step, delay)`:
reads the current angle (defaulting to the inverted target), returns after one
exact write if already there, else writes `range(cur, target, sgn*step)` with a
sleep after each write, then writes the exact target. -/
def rampTo (σ : ServoState) (inv : Nat → Bool) (ch : Nat) (targetRaw : Int)
    (step : Nat) : List Ev :=
  let target := applyInvert inv ch targetRaw
  let cur := currentAngle σ inv ch targetRaw
  if cur = target then [Ev.write ch target]
  else
    let sgn : Int := if cur < target then 1 else -1
    ((rangeInt cur target (sgn * step)).map (fun a => [Ev.write ch a, Ev.sleep])).flatten
      ++ [Ev.write ch target]

/-! ## `_ramp_sync` (lockstep multi-channel ramp) -/

/-- One lockstep tick over the working entries `(ch, cur, targ)`: an arrived
channel (`c == t`) is skipped (`continue`), any other advances by
`min(step, |t - c|)` toward its target and is written once. -/
def syncTick (step : Nat) : List (Nat × Int × Int) → List Ev × List (Nat × Int × Int)
  | [] => ([], [])
  | (ch, c, t) :: rest =>
    let r := syncTick step rest
    if c = t then (r.1, (ch, c, t) :: r.2)
    else
      let sgn : Int := if c < t then 1 else -1
      let move : Int := min (step : Int) (((t - c).natAbs : Nat) : Int)
      let cNew := c + sgn * move
      (Ev.write ch cNew :: r.1, (ch, cNew, t) :: r.2)

/-- Model of `for _ in range(max_steps)`: run `n` ticks, one shared sleep after each tick's
writes. -/
def syncLoop (step : Nat) : Nat → List (Nat × Int × Int) → List Ev × List (Nat × Int × Int)
  | 0, cts => ([], cts)
  | n + 1, cts =>
    let t1 := syncTick step cts
    let rest := syncLoop step n t1.2
    (t1.1 ++ Ev.sleep :: rest.1, rest.2)

/-- Python `(d + step - 1) // step`: increments needed to cover distance `d`. -/
def ceilSteps (d step : Nat) : Nat := (d + step - 1) / step

/-- The working entries built by `_ramp_sync`'s first loop: per zipped
`(ch, t_raw)`, the pair of current (readback, defaulting to the inverted raw
target) and inverted target. -/
def syncEntries (σ : ServoState) (inv : Nat → Bool) (chs : List Nat)
    (traws : List Int) : List (Nat × Int × Int) :=
  (chs.zip traws).map fun p => (p.1, currentAngle σ inv p.1 p.2, applyInvert inv p.1 p.2)

/-- Python `max_steps = 0 if not deltas else the max of the per-channel increment
counts`. -/
def maxSteps (step : Nat) (cts : List (Nat × Int × Int)) : Nat :=
  cts.foldl (fun m e => max m (ceilSteps (e.2.2 - e.2.1).natAbs step)) 0

/-- The tick section of `_ramp_sync`: `max_steps` lockstep ticks. -/
def rampSyncBody (σ : ServoState) (inv : Nat → Bool) (chs : List Nat)
    (traws : List Int) (step : Nat) : List Ev :=
  let cts := syncEntries σ inv chs traws
  (syncLoop step (maxSteps step cts) cts).1

/-- Full trace of `_ramp_sync(ch_list, target_raw_list, invert_map, step, delay)`:
the tick section followed by the final exact-snap writes of every target. -/
def rampSync (σ : ServoState) (inv : Nat → Bool) (chs : List Nat)
    (traws : List Int) (step : Nat) : List Ev :=
  let cts := syncEntries σ inv chs traws
  rampSyncBody σ inv chs traws step ++ cts.map fun e => Ev.write e.1 e.2.2

/-! ## Single-channel tick theory -/

def tick1 (step : Nat) (c t : Int) : Int :=
  if c = t then c
  else c + (if c < t then 1 else -1) * min (step : Int) ((t - c).natAbs : Int)

def tickIter (step : Nat) : Nat → Int → Int → Int
  | 0, c, _ => c
  | n + 1, c, t => tickIter step n (tick1 step c t) t

/-- The values a single working entry `(ch, c, t)` gets written over `n` lockstep
ticks: one per tick while not arrived, none after arrival. -/
def singleWrites (step : Nat) : Nat → Int → Int → List Int
  | 0, _, _ => []
  | n + 1, c, t =>
    if c = t then singleWrites step n c t
    else tick1 step c t :: singleWrites step n (tick1 step c t) t

/-! ## Projection of the lockstep loop onto single entries -/

/-- The entries of a working list that live on channel `ch`. -/
def entsAt (ch : Nat) (cts : List (Nat × Int × Int)) : List (Nat × Int × Int) :=
  cts.filter (fun e => e.1 == ch)

/-- Predicate `stepBounded step σ evs` holds when every write in `evs`, replayed from `σ`,
moves its channel by at most `step` degrees relative to the channel's current
commanded angle (a channel with no commanded angle yet is unconstrained). -/
def stepBounded (step : Nat) : ServoState → List Ev → Bool
  | _, [] => true
  | σ, Ev.sleep :: rest => stepBounded step σ rest
  | σ, Ev.write ch a :: rest =>
    (match σ ch with
     | some c => decide ((a - c).natAbs ≤ step)
     | none => true) && stepBounded step (writeServo σ ch a) rest

/-- Invariant tying working entries to the servo state: channels are distinct and
each entry's current field is the channel's commanded angle — or the channel was
never commanded, in which case `_ramp_sync` recorded it as already arrived. -/
def ctsOK (σ : ServoState) (cts : List (Nat × Int × Int)) : Prop :=
  (cts.map (fun e => e.1)).Nodup ∧
    ∀ e ∈ cts, σ e.1 = some e.2.1 ∨ (σ e.1 = none ∧ e.2.1 = e.2.2)

/-- Concrete state for the spec's ramp scenario: LF hip last commanded at 90°,
nothing else ever commanded. -/
def sigmaLF90 : ServoState := fun ch => if ch = LF_HIP then some 90 else none

/-- Concrete state for the spec's lockstep scenario: LF knee commanded at 124,
RF knee at its inverted 124 (raw 56), nothing else commanded. -/
def sigmaTrot : ServoState :=
  fun ch => if ch = LF_KNEE then some 124 else if ch = RF_KNEE then some 56 else none

/-- The `movement_flag` dictionary: one boolean per gait kind. -/
structure Flags where
  forward : Bool
  backward : Bool
  left : Bool
  right : Bool
  trot : Bool
  trot_sync : Bool
deriving DecidableEq, Repr

/-- Result of `_stop_all_flags()`: every flag `False`. -/
def allFlagsFalse : Flags := ⟨false, false, false, false, false, false⟩

/-- Python `any(movement_flag.values())`. -/
def anyFlag (f : Flags) : Bool :=
  f.forward || f.backward || f.left || f.right || f.trot || f.trot_sync

/-- The four gait-start command verbs. -/
inductive Verb where
  | forward
  | backward
  | left
  | right
deriving DecidableEq, Repr

/-- The flag each start route sets: `/forward` sets `trot_sync` (it launches the
locked-sync trot), the others set their own names. -/
def setVerbFlag : Verb → Flags → Flags
  | .forward, f => ⟨f.forward, f.backward, f.left, f.right, f.trot, true⟩
  | .backward, f => ⟨f.forward, true, f.left, f.right, f.trot, f.trot_sync⟩
  | .left, f => ⟨f.forward, f.backward, true, f.right, f.trot, f.trot_sync⟩
  | .right, f => ⟨f.forward, f.backward, f.left, true, f.trot, f.trot_sync⟩

/-- The worker loop a verb launches on its daemon thread. -/
inductive SupEv where
  | clearAll
  | settle
  | setFlag (v : Verb)
  | launch (v : Verb)
deriving DecidableEq, Repr

/-- The sequence of supervisor actions a start route performs: if any flag is
set, clear them all and sleep the settle interval (0.1 s); then set the verb's
flag and launch the verb's loop thread. -/
def startEvents (f : Flags) (v : Verb) : List SupEv :=
  if anyFlag f then [.clearAll, .settle, .setFlag v, .launch v]
  else [.setFlag v, .launch v]

def applySup (f : Flags) : SupEv → Flags
  | .clearAll => allFlagsFalse
  | .settle => f
  | .setFlag v => setVerbFlag v f
  | .launch _ => f

def flagsAfter (f : Flags) (evs : List SupEv) : Flags := evs.foldl applySup f

/-- Every flag state passed through while executing a list of supervisor
actions, the initial one included. -/
def statesAlong (f : Flags) : List SupEv → List Flags
  | [] => [f]
  | e :: rest => f :: statesAlong (applySup f e) rest

def trueCount (f : Flags) : Nat :=
  (if f.forward then 1 else 0) + (if f.backward then 1 else 0) +
    (if f.left then 1 else 0) + (if f.right then 1 else 0) +
    (if f.trot then 1 else 0) + (if f.trot_sync then 1 else 0)

/-- One motion primitive call: a `_ramp_sync` group call, a `_ramp_to` single
call, or a dwell sleep. `knee` selects `INVERT_KNEE` over `INVERT_HIP`. -/
inductive Prim where
  | sync (chs : List Nat) (traws : List Int) (knee : Bool)
  | one (ch : Nat) (traw : Int) (knee : Bool)
  | dwell
deriving DecidableEq, Repr

def invOf (knee : Bool) : Nat → Bool := if knee then INVERT_KNEE else INVERT_HIP

def set_hip (ch : Nat) (angle : Int) : Prim := .one ch angle false

def set_knee (ch : Nat) (angle : Int) : Prim := .one ch angle true

/-- Model of `set_hip_pair(pair, angle)`: one `_ramp_sync` over the pair's two
hip channels, indexed as in the source. -/
def set_hip_pair (pair : List (Nat × Nat)) (angle : Int) : Prim :=
  .sync [(pair.getD 0 (0, 0)).1, (pair.getD 1 (0, 0)).1] [angle, angle] false

/-- Model of `set_knee_pair(pair, angle)`: one `_ramp_sync` over the pair's two
knee channels, indexed as in the source. -/
def set_knee_pair (pair : List (Nat × Nat)) (angle : Int) : Prim :=
  .sync [(pair.getD 0 (0, 0)).2, (pair.getD 1 (0, 0)).2] [angle, angle] true

def set_hips_all_sync (angle : Int) : Prim := .sync ALL_HIPS (List.replicate 4 angle) false

def set_knees_all_sync (angle : Int) : Prim := .sync ALL_KNEES (List.replicate 4 angle) true

def plant_all : Prim := set_knees_all_sync KNEE_DOWN

def clear_weight_shift : Prim := set_knees_all_sync KNEE_DOWN

/-- Model of `weight_shift_for_pair(swing_pair)`: press the stance pair's knees, then
lighten the swing pair's knees, then dwell `TROT_DWELL`. -/
def weight_shift_for_pair (swing : List (Nat × Nat)) : List Prim :=
  [set_knee_pair (if swing = DIAG_A then DIAG_B else DIAG_A)
      (KNEE_DOWN + PRESS_DELTA),
   set_knee_pair swing (KNEE_DOWN + LIGHTEN_DELTA),
   .dwell]

/-- Model of `trot_step_forward_sync(stance_pair, swing_pair)`: one phase of the
locked-sync trot. -/
def trot_step_forward_sync (stance swing : List (Nat × Nat)) : List Prim :=
  weight_shift_for_pair swing ++
    [set_knee_pair swing KNEE_UP, .dwell,
     set_hip_pair swing HIP_FWD, .dwell,
     set_knee_pair swing KNEE_DOWN, .dwell,
     clear_weight_shift,
     set_hips_all_sync HIP_BACK, .dwell]

/-- Replay a trace against hardware where writes to channels in `bad` raise: the
first failing write leaves its channel unwritten, aborts the remaining events
and reports failure (`false`) to the caller, exactly as an uncaught exception
from `kit.servo[ch].angle = a` would. -/
def execEvents (bad : Nat → Bool) (σ : ServoState) : List Ev → ServoState × Bool
  | [] => (σ, true)
  | Ev.sleep :: rest => execEvents bad σ rest
  | Ev.write ch a :: rest =>
    if bad ch then (σ, false) else execEvents bad (writeServo σ ch a) rest

/-- The event trace of one primitive from state `σ` (ramps use the default
`RAMP_STEP`; a dwell issues no writes). -/
def primEvents (σ : ServoState) : Prim → List Ev
  | .sync chs traws knee => rampSync σ (invOf knee) chs traws RAMP_STEP
  | .one ch traw knee => rampTo σ (invOf knee) ch traw RAMP_STEP
  | .dwell => []

def runPrim (bad : Nat → Bool) (σ : ServoState) (p : Prim) : ServoState × Bool :=
  execEvents bad σ (primEvents σ p)

/-- Run a phase's primitives in order; an exception escaping one primitive
propagates — the remaining primitives never run. -/
def runPrims (bad : Nat → Bool) (σ : ServoState) : List Prim → ServoState × Bool
  | [] => (σ, true)
  | p :: rest =>
    let r := runPrim bad σ p
    if r.2 then runPrims bad r.1 rest else (r.1, false)

/-- The commanded pose after `setup_pose_bias_back()`: knees down (124 raw),
hips at the bias angle `(90+145)//2 = 117` raw, per-channel inversion applied. -/
def sigmaStance : ServoState := fun ch =>
  if ch = LF_HIP then some 117 else if ch = LF_KNEE then some 124 else
  if ch = LR_HIP then some 117 else if ch = LR_KNEE then some 124 else
  if ch = RF_HIP then some 63 else if ch = RF_KNEE then some 56 else
  if ch = RR_HIP then some 63 else if ch = RR_KNEE then some 56 else none

/-- Hardware where the LF knee channel is unreachable. -/
def badLF : Nat → Bool := fun ch => ch == LF_KNEE

/-- Model of `plant_all()`: knees to `KNEE_DOWN` in one `_ramp_sync`. -/
def plant_all_events (σ : ServoState) : List Ev :=
  rampSync σ INVERT_KNEE ALL_KNEES (List.replicate 4 KNEE_DOWN) RAMP_STEP

/-- Model of `hips_all(angle)`: hips to `angle` in one `_ramp_sync`. -/
def hips_all_events (σ : ServoState) (angle : Int) : List Ev :=
  rampSync σ INVERT_HIP ALL_HIPS (List.replicate 4 angle) RAMP_STEP

/-- Model of `setup()`: knees down, hips neutral, then a 0.2 s sleep. -/
def setup_events (σ : ServoState) : List Ev :=
  plant_all_events σ ++
    hips_all_events (applyEvents σ (plant_all_events σ)) HIP_NEUTRAL ++ [Ev.sleep]

/-- Model of the stop route: clear every movement flag, then `setup()`. -/
def stop_route (f : Flags) (σ : ServoState) : Flags × List Ev :=
  (allFlagsFalse, setup_events σ)

/-- The fully neutral commanded pose: hips 90 (inversion-symmetric), knees 124
raw (56 on inverted channels). -/
def sigmaNeutral : ServoState := fun ch =>
  if ch = LF_HIP then some 90 else if ch = LF_KNEE then some 124 else
  if ch = LR_HIP then some 90 else if ch = LR_KNEE then some 124 else
  if ch = RF_HIP then some 90 else if ch = RF_KNEE then some 56 else
  if ch = RR_HIP then some 90 else if ch = RR_KNEE then some 56 else none

/-! ## Lemmas and claim theorems -/

lemma tick1_self (step : Nat) (t : Int) : tick1 step t t = t := by
  simp [tick1]

lemma tick1_natAbs (step : Nat) (c t : Int) :
    (t - tick1 step c t).natAbs = (t - c).natAbs - step := by
  by_cases h : c = t
  · subst h; simp [tick1]
  · unfold tick1
    simp only [h, if_false]
    by_cases hlt : c < t
    · simp only [hlt, if_true]
      have hd : ((t - c).natAbs : Int) = t - c := Int.natAbs_of_nonneg (by omega)
      rw [one_mul]
      omega
    · simp only [hlt, if_false]
      have hd : ((t - c).natAbs : Int) = -(t - c) := by
        rw [← Int.natAbs_neg]
        exact Int.natAbs_of_nonneg (by omega)
      omega

lemma tickIter_natAbs (step : Nat) (n : Nat) (c t : Int) :
    (t - tickIter step n c t).natAbs = (t - c).natAbs - n * step := by
  induction n generalizing c with
  | zero => simp [tickIter]
  | succ n ih =>
    show (t - tickIter step n (tick1 step c t) t).natAbs = _
    rw [ih, tick1_natAbs]
    ring_nf
    omega

lemma ceilSteps_le_iff (d step n : Nat) (hstep : 0 < step) :
    ceilSteps d step ≤ n ↔ d ≤ n * step := by
  unfold ceilSteps
  rw [Nat.div_le_iff_le_mul_add_pred hstep]
  constructor
  · intro h
    have : step * n = n * step := Nat.mul_comm _ _
    omega
  · intro h
    have : step * n = n * step := Nat.mul_comm _ _
    omega

lemma tickIter_arrive (step n : Nat) (c t : Int) (hstep : 0 < step)
    (h : ceilSteps (t - c).natAbs step ≤ n) : tickIter step n c t = t := by
  have h1 := tickIter_natAbs step n c t
  rw [ceilSteps_le_iff _ _ _ hstep] at h
  have h2 : (t - tickIter step n c t).natAbs = 0 := by omega
  omega

lemma ceilSteps_zero (step : Nat) : ceilSteps 0 step = 0 := by
  unfold ceilSteps
  rcases Nat.eq_zero_or_pos step with h | h
  · subst h; rfl
  · have : 0 + step - 1 = step - 1 := by omega
    rw [this]
    exact Nat.div_eq_of_lt (by omega)

lemma ceilSteps_succ (d step : Nat) (hd : 0 < d) (hstep : 0 < step) :
    ceilSteps d step = ceilSteps (d - step) step + 1 := by
  unfold ceilSteps
  by_cases h : d ≤ step
  · have h1 : d - step + step - 1 = step - 1 := by omega
    have h2 : (step - 1) / step = 0 := Nat.div_eq_of_lt (by omega)
    have h3 : (d + step - 1) / step = 1 := by
      have e : d + step - 1 = (d - 1) + 1 * step := by omega
      have e2 : (d - 1) / step = 0 := Nat.div_eq_of_lt (by omega)
      rw [e, Nat.add_mul_div_right _ _ hstep, e2]
    rw [h1, h2, h3]
  · have h1 : d + step - 1 = (d - step + step - 1) + 1 * step := by omega
    rw [h1, Nat.add_mul_div_right _ _ hstep]

lemma singleWrites_self (step n : Nat) (t : Int) : singleWrites step n t t = [] := by
  induction n with
  | zero => rfl
  | succ n ih => simp [singleWrites, ih]

lemma tickIter_succ_left (step n : Nat) (c t : Int) :
    tickIter step (n + 1) c t = tickIter step n (tick1 step c t) t := rfl

lemma singleWrites_eq_map (step : Nat) (hstep : 0 < step) (n : Nat) (c t : Int) :
    singleWrites step n c t =
      (List.range (min n (ceilSteps (t - c).natAbs step))).map
        (fun j => tickIter step (j + 1) c t) := by
  induction n generalizing c with
  | zero => simp [singleWrites]
  | succ n ih =>
    by_cases h : c = t
    · subst h
      simp [singleWrites_self, ceilSteps_zero]
    · have hd : 0 < (t - c).natAbs := by omega
      have hsucc := ceilSteps_succ (t - c).natAbs step hd hstep
      have hd' : (t - tick1 step c t).natAbs = (t - c).natAbs - step :=
        tick1_natAbs step c t
      rw [singleWrites]
      simp only [h, if_false]
      rw [ih (tick1 step c t), hd', hsucc]
      have hmin : min (n + 1) (ceilSteps ((t - c).natAbs - step) step + 1) =
          min n (ceilSteps ((t - c).natAbs - step) step) + 1 := by omega
      rw [hmin, List.range_succ_eq_map]
      simp only [List.map_cons, List.map_map]
      constructor

lemma syncTick_eq (step : Nat) (cts : List (Nat × Int × Int)) :
    syncTick step cts =
      (cts.filterMap (fun e => if e.2.1 = e.2.2 then none
          else some (Ev.write e.1 (tick1 step e.2.1 e.2.2))),
       cts.map (fun e => (e.1, tick1 step e.2.1 e.2.2, e.2.2))) := by
  induction cts with
  | nil => rfl
  | cons e rest ih =>
    obtain ⟨ch, c, t⟩ := e
    by_cases h : c = t
    · simp [syncTick, ih, h, tick1_self]
    · simp [syncTick, ih, h, tick1]

lemma syncLoop_snd (step n : Nat) (cts : List (Nat × Int × Int)) :
    (syncLoop step n cts).2 =
      cts.map (fun e => (e.1, tickIter step n e.2.1 e.2.2, e.2.2)) := by
  induction n generalizing cts with
  | zero =>
    simp only [syncLoop]
    rw [List.map_congr_left]
    · exact (List.map_id cts).symm
    · intro e _; rfl
  | succ n ih =>
    show (syncLoop step n (syncTick step cts).2).2 = _
    rw [syncTick_eq, ih]
    simp only [List.map_map]
    rfl

lemma writesTo_append (ch : Nat) (a b : List Ev) :
    writesTo ch (a ++ b) = writesTo ch a ++ writesTo ch b := by
  induction a with
  | nil => rfl
  | cons e rest ih =>
    cases e with
    | write c v =>
      by_cases h : c = ch <;> simp [writesTo, h, ih]
    | sleep => simp [writesTo, ih]

lemma sleepCount_append (a b : List Ev) :
    sleepCount (a ++ b) = sleepCount a + sleepCount b := by
  unfold sleepCount
  exact List.countP_append _ _ _

lemma writesTo_syncTick (step : Nat) (ch : Nat) (cts : List (Nat × Int × Int)) :
    writesTo ch (syncTick step cts).1 =
      (entsAt ch cts).filterMap
        (fun e => if e.2.1 = e.2.2 then none else some (tick1 step e.2.1 e.2.2)) := by
  induction cts with
  | nil => rfl
  | cons e rest ih =>
    obtain ⟨c0, c, t⟩ := e
    rw [syncTick_eq] at *
    by_cases hch : c0 = ch
    · subst hch
      by_cases h : c = t
      · simpa [entsAt, h] using ih
      · simpa [entsAt, h, writesTo] using ih
    · by_cases h : c = t
      · simpa [entsAt, h, hch] using ih
      · simpa [entsAt, h, hch, writesTo] using ih

lemma entsAt_map_tick (step : Nat) (ch : Nat) (cts : List (Nat × Int × Int)) :
    entsAt ch (cts.map (fun e => ((e.1 : Nat), tick1 step e.2.1 e.2.2, e.2.2))) =
      (entsAt ch cts).map (fun e => (e.1, tick1 step e.2.1 e.2.2, e.2.2)) := by
  unfold entsAt
  rw [List.filter_map]
  rfl

lemma sleepCount_syncTick (step : Nat) (cts : List (Nat × Int × Int)) :
    sleepCount (syncTick step cts).1 = 0 := by
  rw [syncTick_eq]
  simp only [sleepCount, List.countP_eq_zero]
  intro e he
  rw [List.mem_filterMap] at he
  obtain ⟨a, _, ha⟩ := he
  by_cases h : a.2.1 = a.2.2
  · simp [h] at ha
  · simp [h] at ha
    subst ha
    simp [isSleep]

lemma sleepCount_syncLoop (step n : Nat) (cts : List (Nat × Int × Int)) :
    sleepCount (syncLoop step n cts).1 = n := by
  induction n generalizing cts with
  | zero => rfl
  | succ n ih =>
    show sleepCount ((syncTick step cts).1 ++ Ev.sleep :: (syncLoop step n _).1) = _
    rw [sleepCount_append, sleepCount_syncTick]
    have : sleepCount (Ev.sleep :: (syncLoop step n (syncTick step cts).2).1) =
        1 + sleepCount (syncLoop step n (syncTick step cts).2).1 := by
      simp [sleepCount, List.countP_cons, isSleep]
      omega
    rw [this, ih]
    omega

/-- Over `n` lockstep ticks the writes a uniquely-represented channel receives are
exactly its single-entry write sequence. -/
lemma writesTo_syncLoop (step n : Nat) (ch : Nat) (c t : Int)
    (cts : List (Nat × Int × Int)) (h : entsAt ch cts = [(ch, c, t)]) :
    writesTo ch (syncLoop step n cts).1 = singleWrites step n c t := by
  induction n generalizing cts c with
  | zero => rfl
  | succ n ih =>
    show writesTo ch ((syncTick step cts).1 ++ Ev.sleep :: (syncLoop step n _).1) = _
    rw [writesTo_append, writesTo_syncTick, h]
    have hrec : writesTo ch (Ev.sleep :: (syncLoop step n (syncTick step cts).2).1) =
        singleWrites step n (tick1 step c t) t := by
      show writesTo ch (syncLoop step n (syncTick step cts).2).1 = _
      apply ih
      rw [syncTick_eq]
      show entsAt ch (cts.map (fun e => ((e.1 : Nat), tick1 step e.2.1 e.2.2, e.2.2))) = _
      rw [entsAt_map_tick, h]
      rfl
    by_cases hct : c = t
    · rw [hrec]
      simp only [List.filterMap]
      simp [hct, singleWrites, tick1_self]
    · rw [hrec]
      simp [hct, singleWrites]

lemma foldl_max_le_self {α : Type} (f : α → Nat) (l : List α) (acc : Nat) :
    acc ≤ l.foldl (fun m e => max m (f e)) acc := by
  induction l generalizing acc with
  | nil => exact Nat.le_refl _
  | cons x xs ih => exact Nat.le_trans (Nat.le_max_left _ _) (ih _)

lemma foldl_max_le_of_mem {α : Type} (f : α → Nat) (l : List α) (acc : Nat)
    {x : α} (hx : x ∈ l) : f x ≤ l.foldl (fun m e => max m (f e)) acc := by
  induction l generalizing acc with
  | nil => cases hx
  | cons y ys ih =>
    rcases List.mem_cons.mp hx with h | h
    · subst h
      exact Nat.le_trans (Nat.le_max_right _ _) (foldl_max_le_self f ys _)
    · exact ih _ h

lemma foldl_max_attained {α : Type} (f : α → Nat) (l : List α) (acc : Nat) :
    l.foldl (fun m e => max m (f e)) acc = acc ∨
      ∃ x ∈ l, l.foldl (fun m e => max m (f e)) acc = f x := by
  induction l generalizing acc with
  | nil => exact Or.inl rfl
  | cons y ys ih =>
    rcases ih (max acc (f y)) with h | h
    · by_cases hc : acc ≤ f y
      · right
        refine ⟨y, List.mem_cons_self _ _, ?_⟩
        simpa [Nat.max_eq_right hc] using h
      · left
        simpa [Nat.max_eq_left (Nat.le_of_not_le hc)] using h
    · obtain ⟨x, hx, hfx⟩ := h
      exact Or.inr ⟨x, List.mem_cons_of_mem _ hx, hfx⟩

/-- The value a trace leaves on a channel: its last write if any, else the
initial value. -/
lemma applyEvents_at (σ : ServoState) (evs : List Ev) (ch : Nat) :
    applyEvents σ evs ch =
      match (writesTo ch evs).getLast? with
      | some v => some v
      | none => σ ch := by
  induction evs generalizing σ with
  | nil => rfl
  | cons e rest ih =>
    cases e with
    | sleep => simpa [applyEvents, writesTo] using ih σ
    | write c a =>
      by_cases h : c = ch
      · subst h
        rw [applyEvents, ih, writesTo, if_pos rfl]
        cases hr : (writesTo c rest).getLast? with
        | some v => simp [List.getLast?_cons, hr]
        | none =>
          have : writesTo c rest = [] := by
            cases hw : writesTo c rest with
            | nil => rfl
            | cons z zs => rw [hw] at hr; simp [List.getLast?] at hr
          simp [this, writeServo]
      · rw [applyEvents, ih, writesTo, if_neg h]
        have hw : writeServo σ c a ch = σ ch := by
          unfold writeServo
          rw [if_neg (fun hc => h hc.symm)]
        cases hr : (writesTo ch rest).getLast? <;> simp [hw]

lemma applyEvents_congr (σ1 σ2 : ServoState) (evs : List Ev) (ch : Nat)
    (h : ∀ c, σ1 c = σ2 c) : applyEvents σ1 evs ch = applyEvents σ2 evs ch := by
  rw [applyEvents_at, applyEvents_at, h ch]

lemma rangeIntLen_zero_step (start stop : Int) : rangeIntLen start stop 0 = 0 := by
  simp [rangeIntLen]

lemma rangeIntLen_pos_eq (start stop sI : Int) (h : 0 < sI) :
    rangeIntLen start stop sI = ((stop - start + sI - 1) / sI).toNat := by
  simp [rangeIntLen, h]

lemma rangeIntLen_neg_eq (start stop sI : Int) (h : sI < 0) :
    rangeIntLen start stop sI = ((start - stop + -sI - 1) / (-sI)).toNat := by
  simp [rangeIntLen, h, show ¬(0:Int) < sI by omega]

lemma rangeIntLen_shift (start stop sI : Int) (hs : sI ≠ 0)
    (h : 0 < rangeIntLen start stop sI) :
    rangeIntLen (start + sI) stop sI = rangeIntLen start stop sI - 1 := by
  rcases lt_trichotomy sI 0 with hneg | hzero | hpos
  · rw [rangeIntLen_neg_eq _ _ _ hneg] at h ⊢
    rw [rangeIntLen_neg_eq _ _ _ hneg]
    have e1 : start + sI - stop + -sI - 1 = (start - stop + -sI - 1) + (-1) * (-sI) := by
      ring
    rw [e1, Int.add_mul_ediv_right _ _ (by omega)]
    omega
  · exact absurd hzero hs
  · rw [rangeIntLen_pos_eq _ _ _ hpos] at h ⊢
    rw [rangeIntLen_pos_eq _ _ _ hpos]
    have e1 : stop - (start + sI) + sI - 1 = (stop - start + sI - 1) + (-1) * sI := by
      ring
    rw [e1, Int.add_mul_ediv_right _ _ (by omega)]
    omega

lemma rangeInt_cons (start stop sI : Int) (h : 0 < rangeIntLen start stop sI) :
    rangeInt start stop sI = start :: rangeInt (start + sI) stop sI := by
  have hs : sI ≠ 0 := by
    intro h0
    rw [h0, rangeIntLen_zero_step] at h
    omega
  have hlen := rangeIntLen_shift start stop sI hs h
  obtain ⟨m, hm⟩ : ∃ m, rangeIntLen start stop sI = m + 1 :=
    ⟨rangeIntLen start stop sI - 1, by omega⟩
  unfold rangeInt
  rw [hm, hlen, hm, Nat.add_sub_cancel, List.range_succ_eq_map]
  simp only [List.map_cons, List.map_map, mul_zero, add_zero]
  congr 1
  · simp
  · apply List.map_congr_left
    intro k _
    simp only [Function.comp_apply, Nat.succ_eq_add_one]
    push_cast
    ring

lemma rangeInt_head (start stop sI : Int) (h : 0 < rangeIntLen start stop sI) :
    (rangeInt start stop sI).head? = some start := by
  rw [rangeInt_cons _ _ _ h]
  rfl

lemma chain'_rangeInt (step : Nat) (stop sI : Int) (hsI : sI.natAbs ≤ step) :
    ∀ n start, rangeIntLen start stop sI = n →
      List.Chain' (fun a b => (b - a).natAbs ≤ step) (rangeInt start stop sI) := by
  intro n
  induction n with
  | zero =>
    intro start h
    unfold rangeInt
    rw [h]
    exact List.chain'_nil
  | succ m ih =>
    intro start h
    have hs : sI ≠ 0 := by
      intro h0
      rw [h0, rangeIntLen_zero_step] at h
      omega
    have hlen := rangeIntLen_shift start stop sI hs (by omega)
    rw [rangeInt_cons _ _ _ (by omega)]
    rw [List.chain'_cons']
    constructor
    · intro b hb
      rcases Nat.eq_zero_or_pos (rangeIntLen (start + sI) stop sI) with h0 | h0
      · unfold rangeInt at hb
        rw [h0] at hb
        simp at hb
      · rw [rangeInt_head _ _ _ h0] at hb
        have hb2 : b = start + sI := by
          simpa using hb.symm
        subst hb2
        simpa using hsI
    · exact ih (start + sI) (by omega)

lemma stepBounded_append (step : Nat) (σ : ServoState) (a b : List Ev) :
    stepBounded step σ (a ++ b) =
      (stepBounded step σ a && stepBounded step (applyEvents σ a) b) := by
  induction a generalizing σ with
  | nil => simp [stepBounded, applyEvents]
  | cons e rest ih =>
    cases e with
    | sleep => simpa [stepBounded, applyEvents] using ih σ
    | write c v =>
      simp only [List.cons_append, stepBounded, applyEvents, ih]
      rw [show rest.append b = rest ++ b from rfl, ih, Bool.and_assoc]

lemma writesTo_interleave (ch : Nat) (vs : List Int) :
    writesTo ch ((vs.map (fun a => [Ev.write ch a, Ev.sleep])).flatten) = vs := by
  induction vs with
  | nil => rfl
  | cons v rest ih => simp [writesTo, ih]

lemma writesTo_interleave_ne (c ch : Nat) (vs : List Int) (h : c ≠ ch) :
    writesTo c ((vs.map (fun a => [Ev.write ch a, Ev.sleep])).flatten) = [] := by
  induction vs with
  | nil => rfl
  | cons v rest ih =>
    have hne : ¬ch = c := fun hc => h hc.symm
    simp [writesTo, hne, ih]

lemma sleepCount_interleave (ch : Nat) (vs : List Int) :
    sleepCount ((vs.map (fun a => [Ev.write ch a, Ev.sleep])).flatten) = vs.length := by
  induction vs with
  | nil => rfl
  | cons v rest ih => simp [sleepCount, isSleep, List.countP_cons] at ih ⊢; omega

lemma len_eq_one_bound (cur target sI : Int) (h : rangeIntLen cur target sI = 1) :
    (target - cur).natAbs ≤ sI.natAbs := by
  rcases lt_trichotomy sI 0 with hneg | hzero | hpos
  · rw [rangeIntLen_neg_eq _ _ _ hneg] at h
    have h2 : (cur - target + -sI - 1) / (-sI) = 1 := by omega
    have hub : cur - target + -sI - 1 < 2 * (-sI) :=
      (Int.ediv_lt_iff_lt_mul (show (0:Int) < -sI by omega)).mp (by omega)
    have hlb : 1 * (-sI) ≤ cur - target + -sI - 1 :=
      (Int.le_ediv_iff_mul_le (show (0:Int) < -sI by omega)).mp (by omega)
    omega
  · rw [hzero, rangeIntLen_zero_step] at h
    omega
  · rw [rangeIntLen_pos_eq _ _ _ hpos] at h
    have h2 : (target - cur + sI - 1) / sI = 1 := by omega
    have hub : target - cur + sI - 1 < 2 * sI :=
      (Int.ediv_lt_iff_lt_mul hpos).mp (by omega)
    have hlb : 1 * sI ≤ target - cur + sI - 1 :=
      (Int.le_ediv_iff_mul_le hpos).mp (by omega)
    omega

lemma stepBounded_rampSeq (step : Nat) (ch : Nat) (target sI : Int)
    (hsI : sI.natAbs ≤ step) (hs : sI ≠ 0) :
    ∀ n cur (σ : ServoState) (σv : Int), rangeIntLen cur target sI = n →
      σ ch = some σv →
      (n = 0 → (target - σv).natAbs ≤ step) →
      (0 < n → (cur - σv).natAbs ≤ step) →
      stepBounded step σ
        (((rangeInt cur target sI).map (fun a => [Ev.write ch a, Ev.sleep])).flatten
          ++ [Ev.write ch target]) = true := by
  intro n
  induction n with
  | zero =>
    intro cur σ σv hlen hσ h0 _
    unfold rangeInt
    rw [hlen]
    simp [stepBounded, hσ, h0 rfl]
  | succ m ih =>
    intro cur σ σv hlen hσ _ hpos
    rw [rangeInt_cons _ _ _ (by omega)]
    simp only [List.map_cons, List.flatten_cons, List.cons_append, List.append_assoc]
    show stepBounded step σ (Ev.write ch cur :: Ev.sleep :: _) = true
    rw [stepBounded, hσ]
    simp only [stepBounded, Bool.and_eq_true, decide_eq_true_eq]
    refine ⟨hpos (by omega), ?_⟩
    have hlen' : rangeIntLen (cur + sI) target sI = m := by
      have := rangeIntLen_shift cur target sI hs (by omega)
      omega
    refine ih (cur + sI) (writeServo σ ch cur) cur hlen' ?_ ?_ ?_
    · unfold writeServo
      simp
    · intro hm
      have h1 : rangeIntLen cur target sI = 1 := by omega
      have := len_eq_one_bound cur target sI h1
      omega
    · intro _
      have : (cur + sI - cur).natAbs = sI.natAbs := by
        congr 1
        ring
      omega

lemma applyEvents_append (σ : ServoState) (a b : List Ev) :
    applyEvents σ (a ++ b) = applyEvents (applyEvents σ a) b := by
  induction a generalizing σ with
  | nil => rfl
  | cons e rest ih =>
    cases e with
    | sleep => simpa [applyEvents] using ih σ
    | write c v => simpa [applyEvents] using ih (writeServo σ c v)

lemma entsAt_eq_nil (ch : Nat) (cts : List (Nat × Int × Int))
    (h : ch ∉ cts.map (fun e => e.1)) : entsAt ch cts = [] := by
  induction cts with
  | nil => rfl
  | cons e rest ih =>
    simp only [List.map_cons, List.mem_cons] at h
    push_neg at h
    unfold entsAt at *
    rw [List.filter_cons_of_neg, ih h.2]
    simp only [beq_iff_eq]
    exact fun hc => h.1 hc.symm

lemma entsAt_of_nodup (cts : List (Nat × Int × Int))
    (hnd : (cts.map (fun e => e.1)).Nodup) {e : Nat × Int × Int} (he : e ∈ cts) :
    entsAt e.1 cts = [e] := by
  induction cts with
  | nil => cases he
  | cons x rest ih =>
    rw [List.map_cons, List.nodup_cons] at hnd
    rcases List.mem_cons.mp he with h | h
    · subst h
      unfold entsAt
      rw [List.filter_cons_of_pos (by simp)]
      rw [show List.filter (fun e2 => e2.1 == e.1) rest = entsAt e.1 rest from rfl]
      rw [entsAt_eq_nil _ _ hnd.1]
    · have hne : x.1 ≠ e.1 := by
        intro hc
        exact hnd.1 (hc ▸ List.mem_map_of_mem (fun z => z.1) h)
      unfold entsAt
      rw [List.filter_cons_of_neg (by simpa using hne)]
      exact ih hnd.2 h

lemma stepBounded_syncTick (step : Nat) (σ : ServoState)
    (cts : List (Nat × Int × Int)) (h : ctsOK σ cts) :
    stepBounded step σ (syncTick step cts).1 = true := by
  obtain ⟨hnd, hcond⟩ := h
  induction cts generalizing σ with
  | nil => rfl
  | cons e rest ih =>
    obtain ⟨ch, c, t⟩ := e
    rw [List.map_cons, List.nodup_cons] at hnd
    by_cases hct : c = t
    · show stepBounded step σ (syncTick step ((ch, c, t) :: rest)).1 = true
      rw [syncTick]
      simp only [hct, if_pos rfl]
      exact ih σ hnd.2 (fun e he => hcond e (List.mem_cons_of_mem _ he))
    · rw [syncTick]
      simp only [hct, if_neg hct]
      rcases hcond (ch, c, t) (List.mem_cons_self _ _) with hσ | ⟨_, hc⟩
      · show stepBounded step σ (Ev.write ch _ :: _) = true
        rw [stepBounded, hσ]
        simp only [Bool.and_eq_true, decide_eq_true_eq]
        constructor
        · have : (c + (if c < t then 1 else -1) *
              min (step : Int) (((t - c).natAbs : Nat) : Int) - c).natAbs ≤ step := by
            by_cases hlt : c < t
            · rw [if_pos hlt, one_mul]
              omega
            · rw [if_neg hlt, neg_one_mul]
              omega
          simpa using this
        · apply ih
          · exact hnd.2
          · intro e' he'
            rcases hcond e' (List.mem_cons_of_mem _ he') with h1 | h1
            · left
              rw [← h1]
              unfold writeServo
              rw [if_neg]
              intro hc
              exact hnd.1 (hc ▸ List.mem_map_of_mem (fun z => z.1) he')
            · right
              refine ⟨?_, h1.2⟩
              rw [← h1.1]
              unfold writeServo
              rw [if_neg]
              intro hc
              exact hnd.1 (hc ▸ List.mem_map_of_mem (fun z => z.1) he')
      · exact absurd hc hct

lemma tickIter_self (step n : Nat) (t : Int) : tickIter step n t t = t := by
  induction n with
  | zero => rfl
  | succ n ih =>
    show tickIter step n (tick1 step t t) t = t
    rw [tick1_self]
    exact ih

lemma cond_writeServo (σ : ServoState) (ch : Nat) (v : Int)
    (rest : List (Nat × Int × Int)) (hch : ch ∉ rest.map (fun e => e.1))
    (hcond : ∀ e ∈ rest, σ e.1 = some e.2.1 ∨ (σ e.1 = none ∧ e.2.1 = e.2.2)) :
    ∀ e ∈ rest, writeServo σ ch v e.1 = some e.2.1 ∨
      (writeServo σ ch v e.1 = none ∧ e.2.1 = e.2.2) := by
  intro e he
  have hne : e.1 ≠ ch := fun hc => hch (hc ▸ List.mem_map_of_mem (fun z => z.1) he)
  have hw : writeServo σ ch v e.1 = σ e.1 := by
    unfold writeServo
    rw [if_neg hne]
  rw [hw]
  exact hcond e he

lemma ctsOK_after_tick (step : Nat) (σ : ServoState) (cts : List (Nat × Int × Int))
    (h : ctsOK σ cts) :
    ctsOK (applyEvents σ (syncTick step cts).1) (syncTick step cts).2 := by
  obtain ⟨hnd, hcond⟩ := h
  have hsnd : (syncTick step cts).2 =
      cts.map (fun e => (e.1, tick1 step e.2.1 e.2.2, e.2.2)) := by
    rw [syncTick_eq]
  constructor
  · rw [hsnd]
    simpa [List.map_map, Function.comp] using hnd
  · intro e' he'
    rw [hsnd, List.mem_map] at he'
    obtain ⟨e, he, rfl⟩ := he'
    obtain ⟨ch, c, t⟩ := e
    show applyEvents σ (syncTick step cts).1 ch = some (tick1 step c t) ∨ _
    rw [applyEvents_at, writesTo_syncTick, entsAt_of_nodup cts hnd he]
    by_cases hct : c = t
    · subst hct
      rcases hcond (ch, c, c) he with hσ | ⟨hσ, hcc⟩
      · left
        simp [tick1_self]
        exact hσ
      · right
        simp [tick1_self]
        exact hσ
    · left
      simp only [List.filterMap, if_neg hct]
      rfl

lemma stepBounded_syncLoop (step n : Nat) (σ : ServoState)
    (cts : List (Nat × Int × Int)) (h : ctsOK σ cts) :
    stepBounded step σ (syncLoop step n cts).1 = true ∧
      ctsOK (applyEvents σ (syncLoop step n cts).1) (syncLoop step n cts).2 := by
  induction n generalizing σ cts with
  | zero => exact ⟨rfl, h⟩
  | succ n ih =>
    show stepBounded step σ ((syncTick step cts).1 ++ Ev.sleep :: (syncLoop step n _).1)
        = true ∧ _
    have h1 := stepBounded_syncTick step σ cts h
    have h2 := ctsOK_after_tick step σ cts h
    have h3 := ih (applyEvents σ (syncTick step cts).1) (syncTick step cts).2 h2
    constructor
    · rw [stepBounded_append, h1]
      show (true && stepBounded step (applyEvents σ (syncTick step cts).1)
        (Ev.sleep :: (syncLoop step n (syncTick step cts).2).1)) = true
      rw [Bool.true_and]
      show stepBounded step (applyEvents σ (syncTick step cts).1)
        (syncLoop step n (syncTick step cts).2).1 = true
      exact h3.1
    · show ctsOK (applyEvents σ ((syncTick step cts).1 ++
        Ev.sleep :: (syncLoop step n (syncTick step cts).2).1)) _
      rw [applyEvents_append]
      show ctsOK (applyEvents (applyEvents σ (syncTick step cts).1)
        (syncLoop step n (syncTick step cts).2).1) _
      exact h3.2

lemma stepBounded_snaps (step : Nat) :
    ∀ (cts : List (Nat × Int × Int)) (σ : ServoState), ctsOK σ cts →
      (∀ e ∈ cts, e.2.1 = e.2.2) →
      stepBounded step σ (cts.map (fun e => Ev.write e.1 e.2.2)) = true := by
  intro cts
  induction cts with
  | nil =>
    intro σ _ _
    rfl
  | cons e rest ih =>
    intro σ h harr
    obtain ⟨hnd, hcond⟩ := h
    rw [List.map_cons, List.nodup_cons] at hnd
    rw [List.map_cons]
    rw [show stepBounded step σ (Ev.write e.1 e.2.2 :: rest.map (fun z => Ev.write z.1 z.2.2)) =
      ((match σ e.1 with
        | some c => decide ((e.2.2 - c).natAbs ≤ step)
        | none => true) &&
        stepBounded step (writeServo σ e.1 e.2.2) (rest.map (fun z => Ev.write z.1 z.2.2)))
      from rfl]
    have harr0 : e.2.1 = e.2.2 := harr e (List.mem_cons_self _ _)
    have hrest : ∀ z ∈ rest, σ z.1 = some z.2.1 ∨ (σ z.1 = none ∧ z.2.1 = z.2.2) :=
      fun z hz => hcond z (List.mem_cons_of_mem _ hz)
    have hrec : stepBounded step (writeServo σ e.1 e.2.2)
        (rest.map (fun z => Ev.write z.1 z.2.2)) = true := by
      apply ih (writeServo σ e.1 e.2.2)
      · exact ⟨hnd.2, cond_writeServo σ e.1 e.2.2 rest hnd.1 hrest⟩
      · exact fun z hz => harr z (List.mem_cons_of_mem _ hz)
    rcases hcond e (List.mem_cons_self _ _) with hσ | ⟨hσ, _⟩
    · rw [hσ, hrec]
      simp [← harr0]
    · rw [hσ, hrec]
      rfl

lemma syncEntries_map_fst (σ : ServoState) (inv : Nat → Bool) (chs : List Nat)
    (traws : List Int) (hlen : chs.length ≤ traws.length) :
    (syncEntries σ inv chs traws).map (fun e => e.1) = chs := by
  unfold syncEntries
  rw [List.map_map]
  rw [show ((fun (e : Nat × Int × Int) => e.1) ∘
      fun (p : Nat × Int) => (p.1, currentAngle σ inv p.1 p.2, applyInvert inv p.1 p.2)) =
      Prod.fst from rfl]
  exact List.map_fst_zip _ _ hlen

lemma ctsOK_syncEntries (σ : ServoState) (inv : Nat → Bool) (chs : List Nat)
    (traws : List Int) (hnd : chs.Nodup) (hlen : chs.length ≤ traws.length) :
    ctsOK σ (syncEntries σ inv chs traws) := by
  constructor
  · rw [syncEntries_map_fst _ _ _ _ hlen]
    exact hnd
  · intro e he
    unfold syncEntries at he
    rw [List.mem_map] at he
    obtain ⟨p, _, rfl⟩ := he
    cases hσ : σ p.1 with
    | some a =>
      left
      simp only [currentAngle, hσ]
    | none =>
      right
      simp [currentAngle, hσ]

lemma loop_max_arrives (step : Nat) (hstep : 0 < step) (cts : List (Nat × Int × Int)) :
    ∀ e ∈ (syncLoop step (maxSteps step cts) cts).2, e.2.1 = e.2.2 := by
  intro e he
  rw [syncLoop_snd, List.mem_map] at he
  obtain ⟨e0, he0, rfl⟩ := he
  show tickIter step (maxSteps step cts) e0.2.1 e0.2.2 = e0.2.2
  apply tickIter_arrive _ _ _ _ hstep
  unfold maxSteps
  exact foldl_max_le_of_mem (fun z => ceilSteps (z.2.2 - z.2.1).natAbs step) cts 0 he0

lemma writesTo_snaps (ch : Nat) (cts : List (Nat × Int × Int)) :
    writesTo ch (cts.map (fun e => Ev.write e.1 e.2.2)) =
      (entsAt ch cts).map (fun e => e.2.2) := by
  induction cts with
  | nil => rfl
  | cons e rest ih =>
    by_cases h : e.1 = ch
    · unfold entsAt at *
      rw [List.map_cons, List.filter_cons_of_pos (by simpa using h)]
      simp only [writesTo, if_pos h, List.map_cons, ih]
    · unfold entsAt at *
      rw [List.map_cons, List.filter_cons_of_neg (by simpa using h)]
      simp only [writesTo, if_neg h, ih]

lemma rampSync_eq_body_snaps (σ : ServoState) (inv : Nat → Bool) (chs : List Nat)
    (traws : List Int) (step : Nat) :
    rampSync σ inv chs traws step =
      rampSyncBody σ inv chs traws step ++
        (syncEntries σ inv chs traws).map (fun e => Ev.write e.1 e.2.2) := rfl

lemma foldl_max_all_zero {α : Type} (f : α → Nat) (l : List α)
    (h : ∀ e ∈ l, f e = 0) : l.foldl (fun m e => max m (f e)) 0 = 0 := by
  rcases foldl_max_attained f l 0 with h0 | ⟨x, hx, hfx⟩
  · exact h0
  · rw [hfx]
    exact h x hx

lemma writeServo_self_id (σ : ServoState) (ch : Nat) (v : Int) (h : σ ch = some v) :
    ∀ c, writeServo σ ch v c = σ c := by
  intro c
  unfold writeServo
  by_cases hc : c = ch
  · subst hc
    rw [if_pos rfl, h]
  · rw [if_neg hc]

/-- A channel whose first-loop entry is already at target: its per-channel
write list over the whole `_ramp_sync` call. -/
lemma rampSync_writesTo (σ : ServoState) (inv : Nat → Bool) (chs : List Nat)
    (traws : List Int) (step : Nat) (hlen : chs.length ≤ traws.length)
    (hnd : chs.Nodup) {e : Nat × Int × Int} (he : e ∈ syncEntries σ inv chs traws) :
    writesTo e.1 (rampSync σ inv chs traws step) =
      singleWrites step (maxSteps step (syncEntries σ inv chs traws)) e.2.1 e.2.2
        ++ [e.2.2] := by
  have hndf : ((syncEntries σ inv chs traws).map (fun z => z.1)).Nodup := by
    rw [syncEntries_map_fst _ _ _ _ hlen]
    exact hnd
  have hents := entsAt_of_nodup _ hndf he
  rw [rampSync_eq_body_snaps, writesTo_append, writesTo_snaps, hents]
  have hbody : writesTo e.1 (rampSyncBody σ inv chs traws step) =
      singleWrites step (maxSteps step (syncEntries σ inv chs traws)) e.2.1 e.2.2 := by
    unfold rampSyncBody
    exact writesTo_syncLoop _ _ _ _ _ _ (by
      obtain ⟨ch, c, t⟩ := e
      exact hents)
  rw [hbody]
  rfl

lemma writesTo_rampTo (σ : ServoState) (inv : Nat → Bool) (ch : Nat) (traw : Int)
    (step : Nat) :
    writesTo ch (rampTo σ inv ch traw step) =
      (if currentAngle σ inv ch traw = applyInvert inv ch traw then
        [applyInvert inv ch traw]
      else
        rangeInt (currentAngle σ inv ch traw) (applyInvert inv ch traw)
          ((if currentAngle σ inv ch traw < applyInvert inv ch traw then 1 else -1)
            * step)
          ++ [applyInvert inv ch traw]) := by
  by_cases h : currentAngle σ inv ch traw = applyInvert inv ch traw
  · simp only [rampTo, if_pos h, writesTo]
    simp
  · simp only [rampTo, if_neg h]
    rw [writesTo_append, writesTo_interleave]
    simp [writesTo]

lemma rampTo_getLast (σ : ServoState) (inv : Nat → Bool) (ch : Nat) (traw : Int)
    (step : Nat) :
    (writesTo ch (rampTo σ inv ch traw step)).getLast? =
      some (applyInvert inv ch traw) := by
  rw [writesTo_rampTo]
  by_cases h : currentAngle σ inv ch traw = applyInvert inv ch traw
  · rw [if_pos h]
    rfl
  · rw [if_neg h]
    exact List.getLast?_concat _

lemma rampTo_final_state (σ : ServoState) (inv : Nat → Bool) (ch : Nat) (traw : Int)
    (step : Nat) :
    applyEvents σ (rampTo σ inv ch traw step) ch = some (applyInvert inv ch traw) := by
  rw [applyEvents_at, rampTo_getLast]

/-- Claim C10: a channel with no previously commanded angle (readback `None`)
ramps with the caller-supplied default equal to the target itself, so `ramp_one`
issues exactly one immediate write of the (inversion-adjusted) target, with no
intermediate stepped writes, for every step and delay. -/
theorem C10_uncommanded_channel_single_write (σ : ServoState) (inv : Nat → Bool)
    (ch : Nat) (traw : Int) (step : Nat) (h : σ ch = none) :
    rampTo σ inv ch traw step = [Ev.write ch (applyInvert inv ch traw)] ∧
      applyEvents σ (rampTo σ inv ch traw step) ch =
        some (applyInvert inv ch traw) := by
  have hcur : currentAngle σ inv ch traw = applyInvert inv ch traw := by
    unfold currentAngle
    rw [h]
  constructor
  · simp only [rampTo, if_pos hcur]
  · exact rampTo_final_state σ inv ch traw step

theorem C10_witness :
    (fun _ => (none : Option Int)) LF_KNEE = none ∧
      (rampTo (fun _ => none) INVERT_KNEE LF_KNEE 86 3 = [Ev.write LF_KNEE 86] ∧
        applyEvents (fun _ => none) (rampTo (fun _ => none) INVERT_KNEE LF_KNEE 86 3)
          LF_KNEE = some 86) :=
  ⟨rfl, C10_uncommanded_channel_single_write (fun _ => none) INVERT_KNEE LF_KNEE 86 3 rfl⟩

/-- Claim C5 as stated is false: `_ramp_to`'s Python loop `range(cur, target,
sgn*step)` starts at `cur` itself, so the first write re-commands the current
angle 90 before the stepped writes 93..144 and the final exact write 145. -/
theorem C5_counterexample :
    writesTo LF_HIP (rampTo sigmaLF90 INVERT_HIP LF_HIP 145 3) ≠
      [93, 96, 99, 102, 105, 108, 111, 114, 117, 120, 123, 126, 129, 132, 135,
       138, 141, 144, 145] := by decide

/-- Claim C5 (amended): from commanded angle 90, target 145, step 3, no
inversion, the write sequence is exactly 90 (the loop's start value), 93, 96,
..., 144, then the final exact write 145 (not 146). -/
theorem C5_ramp_one_write_sequence :
    writesTo LF_HIP (rampTo sigmaLF90 INVERT_HIP LF_HIP 145 3) =
      [90, 93, 96, 99, 102, 105, 108, 111, 114, 117, 120, 123, 126, 129, 132,
       135, 138, 141, 144, 145] := by decide

/-- Claim C6 as stated is false: from commanded angle 90 to target 96 with step
3, `ramp_one` writes 90, 93, 96 while a single-channel `ramp_many` writes 93,
96, 96 — different sequences. -/
theorem C6_counterexample :
    writesTo LF_HIP (rampTo sigmaLF90 INVERT_HIP LF_HIP 96 3) ≠
      writesTo LF_HIP (rampSync sigmaLF90 INVERT_HIP [LF_HIP] [96] 3) := by decide

/-- Claim C6 (amended): a single-channel `ramp_many` group reaches exactly the
same final commanded angle as `ramp_one` — both end with an exact write of the
inversion-adjusted target and leave the channel at it, and the two calls emit
identical traces when the channel is already at the target — but the
intermediate write sequences differ in general (see the counterexample). -/
theorem C6_single_channel_same_endpoint (σ : ServoState) (inv : Nat → Bool)
    (ch : Nat) (traw : Int) (step : Nat) :
    (writesTo ch (rampTo σ inv ch traw step)).getLast? =
        some (applyInvert inv ch traw) ∧
      (writesTo ch (rampSync σ inv [ch] [traw] step)).getLast? =
        some (applyInvert inv ch traw) ∧
      applyEvents σ (rampTo σ inv ch traw step) ch =
        applyEvents σ (rampSync σ inv [ch] [traw] step) ch ∧
      (currentAngle σ inv ch traw = applyInvert inv ch traw →
        rampTo σ inv ch traw step = rampSync σ inv [ch] [traw] step) := by
  have hents : syncEntries σ inv [ch] [traw] =
      [(ch, currentAngle σ inv ch traw, applyInvert inv ch traw)] := rfl
  have hw := @rampSync_writesTo σ inv [ch] [traw] step (by simp) (by simp)
    (ch, currentAngle σ inv ch traw, applyInvert inv ch traw)
    (by rw [hents]; exact List.mem_singleton_self _)
  refine ⟨rampTo_getLast σ inv ch traw step, ?_, ?_, ?_⟩
  · rw [hw]
    exact List.getLast?_concat _
  · rw [applyEvents_at, applyEvents_at, rampTo_getLast, hw, List.getLast?_concat]
  · intro hcur
    have hmax : maxSteps step (syncEntries σ inv [ch] [traw]) = 0 := by
      rw [hents]
      unfold maxSteps
      simp [hcur, ceilSteps_zero]
    rw [rampSync_eq_body_snaps]
    rw [show rampSyncBody σ inv [ch] [traw] step =
      (syncLoop step (maxSteps step (syncEntries σ inv [ch] [traw]))
        (syncEntries σ inv [ch] [traw])).1 from rfl]
    rw [hmax]
    rw [show syncLoop step 0 (syncEntries σ inv [ch] [traw]) =
      ([], syncEntries σ inv [ch] [traw]) from rfl]
    rw [hents]
    simp only [rampTo, if_pos hcur, List.map_cons, List.map_nil, List.nil_append]

/-- Claim C2: for every `ramp_one` call and every channel involved in a
`ramp_many` call (with distinct channels), the call's last write to that channel
is an exact write of the inversion-adjusted target and the channel's final
commanded angle equals it, even when the travel distance is not a multiple of
the step. -/
theorem C2_ramp_final_angles_exact (σ : ServoState) (inv : Nat → Bool)
    (ch : Nat) (traw : Int) (chs : List Nat) (traws : List Int) (step : Nat)
    (hlen : chs.length = traws.length) (hnd : chs.Nodup) :
    ((writesTo ch (rampTo σ inv ch traw step)).getLast? =
        some (applyInvert inv ch traw) ∧
      applyEvents σ (rampTo σ inv ch traw step) ch =
        some (applyInvert inv ch traw)) ∧
    ∀ p ∈ chs.zip traws,
      (writesTo p.1 (rampSync σ inv chs traws step)).getLast? =
          some (applyInvert inv p.1 p.2) ∧
        applyEvents σ (rampSync σ inv chs traws step) p.1 =
          some (applyInvert inv p.1 p.2) := by
  constructor
  · exact ⟨rampTo_getLast σ inv ch traw step, rampTo_final_state σ inv ch traw step⟩
  · intro p hp
    have he : (p.1, currentAngle σ inv p.1 p.2, applyInvert inv p.1 p.2) ∈
        syncEntries σ inv chs traws := by
      unfold syncEntries
      exact List.mem_map_of_mem _ hp
    have hw := rampSync_writesTo σ inv chs traws step (by omega) hnd he
    constructor
    · rw [hw]
      exact List.getLast?_concat _
    · rw [applyEvents_at, hw, List.getLast?_concat]

theorem C2_witness :
    (writesTo LF_KNEE
        (rampSync sigmaTrot INVERT_KNEE [LF_KNEE, RF_KNEE] [86, 124] 3)).getLast? =
      some 86 ∧
    applyEvents sigmaTrot
        (rampSync sigmaTrot INVERT_KNEE [LF_KNEE, RF_KNEE] [86, 124] 3) LF_KNEE =
      some 86 :=
  (C2_ramp_final_angles_exact sigmaTrot INVERT_KNEE LF_KNEE 86 [LF_KNEE, RF_KNEE]
      [86, 124] 3 rfl (by decide)).2 (LF_KNEE, 86) (by decide)

/-- Claim C1: a `ramp_many` call (non-empty groups, equal lengths, distinct
channels, positive step) runs exactly `max` over channels of
`ceil(|target-current|/step)` lockstep ticks, one shared sleep per tick; each
channel receives exactly `ceil` of its own tick writes — it is skipped once it
reaches its target — and after its `j`-th tick write its remaining distance is
exactly `|target-current| - (j+1)*step` (truncated at 0), i.e. every tick
advances it by exactly `min(step, remaining)` toward its own target. -/
theorem C1_ramp_many_lockstep (σ : ServoState) (inv : Nat → Bool)
    (chs : List Nat) (traws : List Int) (step : Nat)
    (hstep : 0 < step) (hne : chs ≠ []) (hlen : chs.length = traws.length)
    (hnd : chs.Nodup) :
    (sleepCount (rampSyncBody σ inv chs traws step) =
        maxSteps step (syncEntries σ inv chs traws) ∧
      (∀ e ∈ syncEntries σ inv chs traws,
        ceilSteps (e.2.2 - e.2.1).natAbs step ≤
          maxSteps step (syncEntries σ inv chs traws)) ∧
      ∃ e ∈ syncEntries σ inv chs traws,
        maxSteps step (syncEntries σ inv chs traws) =
          ceilSteps (e.2.2 - e.2.1).natAbs step) ∧
    ∀ e ∈ syncEntries σ inv chs traws,
      (writesTo e.1 (rampSyncBody σ inv chs traws step)).length =
          ceilSteps (e.2.2 - e.2.1).natAbs step ∧
      ∀ j (hj : j < (writesTo e.1 (rampSyncBody σ inv chs traws step)).length),
        (e.2.2 - (writesTo e.1 (rampSyncBody σ inv chs traws step)).get
            ⟨j, hj⟩).natAbs
          = (e.2.2 - e.2.1).natAbs - (j + 1) * step := by
  have hbody : rampSyncBody σ inv chs traws step =
      (syncLoop step (maxSteps step (syncEntries σ inv chs traws))
        (syncEntries σ inv chs traws)).1 := rfl
  have hndf : ((syncEntries σ inv chs traws).map (fun z => z.1)).Nodup := by
    rw [syncEntries_map_fst _ _ _ _ (by omega)]
    exact hnd
  have hcts_ne : syncEntries σ inv chs traws ≠ [] := by
    have hlc : 0 < chs.length := List.length_pos.mpr hne
    have hl2 : 0 < (syncEntries σ inv chs traws).length := by
      unfold syncEntries
      rw [List.length_map, List.length_zip]
      omega
    exact List.length_pos.mp hl2
  have hub : ∀ e ∈ syncEntries σ inv chs traws,
      ceilSteps (e.2.2 - e.2.1).natAbs step ≤
        maxSteps step (syncEntries σ inv chs traws) := by
    intro e he
    unfold maxSteps
    exact foldl_max_le_of_mem (fun z => ceilSteps (z.2.2 - z.2.1).natAbs step) _ 0 he
  refine ⟨⟨?_, hub, ?_⟩, ?_⟩
  · rw [hbody, sleepCount_syncLoop]
  · unfold maxSteps
    rcases foldl_max_attained (fun z => ceilSteps (z.2.2 - z.2.1).natAbs step)
        (syncEntries σ inv chs traws) 0 with h0 | hex
    · obtain ⟨e0, he0⟩ := List.exists_mem_of_ne_nil _ hcts_ne
      refine ⟨e0, he0, ?_⟩
      have hle : ceilSteps (e0.2.2 - e0.2.1).natAbs step ≤
          List.foldl (fun m z => max m (ceilSteps (z.2.2 - z.2.1).natAbs step)) 0
            (syncEntries σ inv chs traws) :=
        foldl_max_le_of_mem (fun z => ceilSteps (z.2.2 - z.2.1).natAbs step) _ 0 he0
      have h0a : List.foldl (fun m z => max m (ceilSteps (z.2.2 - z.2.1).natAbs step)) 0
          (syncEntries σ inv chs traws) = 0 := h0
      omega
    · exact hex
  · intro e he
    obtain ⟨ch0, c, t⟩ := e
    have hents := entsAt_of_nodup _ hndf he
    have hw : writesTo ch0 (rampSyncBody σ inv chs traws step) =
        singleWrites step (maxSteps step (syncEntries σ inv chs traws)) c t := by
      rw [hbody]
      exact writesTo_syncLoop _ _ _ _ _ _ hents
    have hmin : min (maxSteps step (syncEntries σ inv chs traws))
        (ceilSteps (t - c).natAbs step) = ceilSteps (t - c).natAbs step :=
      Nat.min_eq_right (hub _ he)
    have hwm : writesTo ch0 (rampSyncBody σ inv chs traws step) =
        (List.range (ceilSteps (t - c).natAbs step)).map
          (fun j => tickIter step (j + 1) c t) := by
      rw [hw, singleWrites_eq_map step hstep, hmin]
    constructor
    · rw [hwm, List.length_map, List.length_range]
    · intro j hj
      have hj2 : j < ceilSteps (t - c).natAbs step := by
        rw [hwm, List.length_map, List.length_range] at hj
        exact hj
      have hget : (writesTo ch0 (rampSyncBody σ inv chs traws step)).get ⟨j, hj⟩ =
          tickIter step (j + 1) c t := by
        rw [List.get_eq_getElem]
        conv in writesTo _ _ => rw [hwm]
        rw [List.getElem_map, List.getElem_range]
      rw [hget]
      show (t - tickIter step (j + 1) c t).natAbs = (t - c).natAbs - (j + 1) * step
      exact tickIter_natAbs step (j + 1) c t

lemma rangeIntLen_ramp_pos (cur target : Int) (step : Nat) (hstep : 0 < step)
    (hne : cur ≠ target) :
    0 < rangeIntLen cur target ((if cur < target then 1 else -1) * step) := by
  by_cases h : cur < target
  · rw [if_pos h, one_mul, rangeIntLen_pos_eq _ _ _ (by omega)]
    have h1 : 1 ≤ (target - cur + step - 1) / (step : Int) := by
      rw [Int.le_ediv_iff_mul_le (by omega)]
      omega
    omega
  · rw [if_neg h, neg_one_mul]
    have he : rangeIntLen cur target (-(step : Int)) =
        ((cur - target + step - 1) / (step : Int)).toNat := by
      rw [rangeIntLen_neg_eq _ _ _ (by omega)]
      norm_num
    rw [he]
    have h1 : 1 ≤ (cur - target + step - 1) / (step : Int) := by
      rw [Int.le_ediv_iff_mul_le (by omega)]
      omega
    omega

/-- Claim C9: every write issued by `ramp_one` or by `ramp_many` (distinct
channels, positive step) moves the written channel by at most `step` degrees
from its current commanded angle; a channel that was never commanded before is
the only unconstrained case (its first write has no reference angle). -/
theorem C9_bounded_single_step (σ : ServoState) (inv : Nat → Bool)
    (ch : Nat) (traw : Int) (chs : List Nat) (traws : List Int) (step : Nat)
    (hstep : 0 < step) (hlen : chs.length = traws.length) (hnd : chs.Nodup) :
    stepBounded step σ (rampTo σ inv ch traw step) = true ∧
      stepBounded step σ (rampSync σ inv chs traws step) = true := by
  constructor
  · by_cases hcur : currentAngle σ inv ch traw = applyInvert inv ch traw
    · simp only [rampTo, if_pos hcur]
      cases hσ : σ ch with
      | none => simp [stepBounded, hσ]
      | some c =>
        have hc : c = applyInvert inv ch traw := by
          have h1 : currentAngle σ inv ch traw = c := by
            unfold currentAngle
            rw [hσ]
          rw [← h1, hcur]
        simp [stepBounded, hσ, hc]
    · have hσ : σ ch = some (currentAngle σ inv ch traw) := by
        cases hσ2 : σ ch with
        | none =>
          exfalso
          apply hcur
          unfold currentAngle
          rw [hσ2]
        | some a =>
          unfold currentAngle
          rw [hσ2]
      simp only [rampTo, if_neg hcur]
      have hpos := rangeIntLen_ramp_pos (currentAngle σ inv ch traw)
        (applyInvert inv ch traw) step hstep hcur
      apply stepBounded_rampSeq step ch (applyInvert inv ch traw)
        ((if currentAngle σ inv ch traw < applyInvert inv ch traw then 1 else -1)
          * step)
        (by by_cases h : currentAngle σ inv ch traw < applyInvert inv ch traw
            · rw [if_pos h, one_mul]
              omega
            · rw [if_neg h, neg_one_mul]
              omega)
        (by by_cases h : currentAngle σ inv ch traw < applyInvert inv ch traw
            · rw [if_pos h, one_mul]
              omega
            · rw [if_neg h, neg_one_mul]
              omega)
        _ _ σ _ rfl hσ
        (fun h0 => absurd h0 (by omega))
        (fun _ => by simp)
  · rw [rampSync_eq_body_snaps, stepBounded_append]
    have hok := ctsOK_syncEntries σ inv chs traws hnd (by omega)
    have hloop := stepBounded_syncLoop step
      (maxSteps step (syncEntries σ inv chs traws)) σ (syncEntries σ inv chs traws) hok
    have hbody : rampSyncBody σ inv chs traws step =
        (syncLoop step (maxSteps step (syncEntries σ inv chs traws))
          (syncEntries σ inv chs traws)).1 := rfl
    rw [Bool.and_eq_true]
    constructor
    · rw [hbody]
      exact hloop.1
    · have hsnap : (syncEntries σ inv chs traws).map (fun e => Ev.write e.1 e.2.2) =
          ((syncLoop step (maxSteps step (syncEntries σ inv chs traws))
            (syncEntries σ inv chs traws)).2).map (fun e => Ev.write e.1 e.2.2) := by
        rw [syncLoop_snd, List.map_map]
        rfl
      rw [hsnap, hbody]
      exact stepBounded_snaps step _ _ hloop.2
        (loop_max_arrives step hstep (syncEntries σ inv chs traws))

theorem C9_witness :
    stepBounded 3 sigmaLF90 (rampTo sigmaLF90 INVERT_HIP LF_HIP 145 3) = true ∧
      stepBounded 3 sigmaLF90
        (rampSync sigmaLF90 INVERT_KNEE [LF_KNEE, RF_KNEE] [86, 124] 3) = true :=
  C9_bounded_single_step sigmaLF90 INVERT_HIP LF_HIP 145 [LF_KNEE, RF_KNEE] [86, 124] 3
    (by decide) rfl (by decide) |>.imp id
    (fun _ => (C9_bounded_single_step sigmaLF90 INVERT_KNEE LF_HIP 145 [LF_KNEE, RF_KNEE]
      [86, 124] 3 (by decide) rfl (by decide)).2)

lemma anyFlag_false_eq (f : Flags) (h : anyFlag f = false) : f = allFlagsFalse := by
  obtain ⟨a, b, c, d, e, g⟩ := f
  simp only [anyFlag, Bool.or_eq_false_iff] at h
  obtain ⟨⟨⟨⟨⟨h1, h2⟩, h3⟩, h4⟩, h5⟩, h6⟩ := h
  subst h1 h2 h3 h4 h5 h6
  rfl

lemma trueCount_setVerbFlag_allFalse (v : Verb) :
    trueCount (setVerbFlag v allFlagsFalse) = 1 := by
  cases v <;> rfl

/-- Claim C4: starting gait B while at most one gait flag is set yields, after
the settle interval, exactly B's flag true (so A's flag is false); no state
passed through by a start route ever has two flags true; and a second
`start('forward')` with no intervening stop observes `trot_sync` set, clears
all flags, settles, re-sets `trot_sync` and launches a fresh loop. -/
theorem C4_gait_switch (f : Flags) (v : Verb) (h : trueCount f ≤ 1) :
    (∀ g ∈ statesAlong f (startEvents f v), trueCount g ≤ 1) ∧
      flagsAfter f (startEvents f v) = setVerbFlag v allFlagsFalse ∧
      startEvents (flagsAfter allFlagsFalse (startEvents allFlagsFalse .forward))
          .forward =
        [.clearAll, .settle, .setFlag .forward, .launch .forward] := by
  refine ⟨?_, ?_, by decide⟩
  · intro g hg
    by_cases hany : anyFlag f = true
    · rw [startEvents, if_pos hany] at hg
      simp only [statesAlong, applySup, List.mem_cons, List.mem_singleton] at hg
      rcases hg with rfl | rfl | rfl | rfl | rfl | hg
      · exact h
      · decide
      · decide
      · rw [trueCount_setVerbFlag_allFalse]
      · rw [trueCount_setVerbFlag_allFalse]
      · cases hg
    · rw [startEvents, if_neg (by simpa using hany)] at hg
      have hf : f = allFlagsFalse :=
        anyFlag_false_eq f (by revert hany; cases anyFlag f <;> simp)
      subst hf
      simp only [statesAlong, applySup, List.mem_cons, List.mem_singleton] at hg
      rcases hg with rfl | rfl | rfl | hg
      · decide
      · rw [trueCount_setVerbFlag_allFalse]
      · rw [trueCount_setVerbFlag_allFalse]
      · cases hg
  · by_cases hany : anyFlag f = true
    · rw [startEvents, if_pos hany]
      rfl
    · rw [startEvents, if_neg (by simpa using hany)]
      have hf : f = allFlagsFalse :=
        anyFlag_false_eq f (by revert hany; cases anyFlag f <;> simp)
      subst hf
      rfl

theorem C4_witness :
    trueCount ⟨false, false, false, false, false, true⟩ ≤ 1 ∧
      flagsAfter ⟨false, false, false, false, false, true⟩
          (startEvents ⟨false, false, false, false, false, true⟩ .backward) =
        ⟨false, true, false, false, false, false⟩ :=
  ⟨by decide,
    (C4_gait_switch ⟨false, false, false, false, false, true⟩ .backward
      (by decide)).2.1⟩

/-- Claim C3 as stated is false: `weight_shift_for_pair` does not issue a single
four-channel `ramp_many`; it issues two sequential two-channel `set_knee_pair`
calls before the dwell. -/
theorem C3_counterexample :
    ¬∃ (chs : List Nat) (traws : List Int) (knee : Bool),
        weight_shift_for_pair DIAG_A = [Prim.sync chs traws knee, Prim.dwell] ∧
          chs.length = 4 := by
  rintro ⟨chs, traws, knee, h, -⟩
  simpa [weight_shift_for_pair] using congrArg List.length h

/-- Claim C3 (amended): for each swing pair, `weight_shift` presses the stance
pair's two knees to `KNEE_DOWN + press_delta` (132) and then lightens the swing
pair's two knees to `KNEE_DOWN + lighten_delta` (118) in two sequential
pair-wise `ramp_many` calls — stance first, swing second, not one four-channel
call — and then dwells. -/
theorem C3_weight_shift_two_calls :
    weight_shift_for_pair DIAG_A =
      [Prim.sync [RF_KNEE, LR_KNEE] [132, 132] true,
       Prim.sync [LF_KNEE, RR_KNEE] [118, 118] true, Prim.dwell] ∧
      weight_shift_for_pair DIAG_B =
        [Prim.sync [LF_KNEE, RR_KNEE] [132, 132] true,
         Prim.sync [RF_KNEE, LR_KNEE] [118, 118] true, Prim.dwell] := by
  constructor <;> rfl

lemma execEvents_preserves_bad (bad : Nat → Bool) (σ : ServoState) (evs : List Ev)
    (ch : Nat) (h : bad ch = true) : (execEvents bad σ evs).1 ch = σ ch := by
  induction evs generalizing σ with
  | nil => rfl
  | cons e rest ih =>
    cases e with
    | sleep => exact ih σ
    | write c a =>
      by_cases hc : bad c
      · simp [execEvents, hc]
      · have hne : ch ≠ c := by
          intro hcc
          rw [hcc] at h
          exact hc h
        rw [show execEvents bad σ (Ev.write c a :: rest) =
          execEvents bad (writeServo σ c a) rest from by simp [execEvents, hc]]
        rw [ih (writeServo σ c a)]
        unfold writeServo
        rw [if_neg hne]

lemma execEvents_fails (bad : Nat → Bool) (σ : ServoState) (evs : List Ev)
    (ch : Nat) (a : Int) (hbad : bad ch = true) (hmem : Ev.write ch a ∈ evs) :
    (execEvents bad σ evs).2 = false := by
  induction evs generalizing σ with
  | nil => cases hmem
  | cons e rest ih =>
    cases e with
    | sleep =>
      rcases List.mem_cons.mp hmem with h | h
      · cases h
      · exact ih σ h
    | write c v =>
      by_cases hc : bad c
      · simp [execEvents, hc]
      · have h2 : Ev.write ch a ∈ rest := by
          rcases List.mem_cons.mp hmem with h | h
          · exfalso
            injection h with h1 _
            rw [h1] at hbad
            exact hc hbad
          · exact h
        rw [show execEvents bad σ (Ev.write c v :: rest) =
          execEvents bad (writeServo σ c v) rest from by simp [execEvents, hc]]
        exact ih (writeServo σ c v) h2

/-- Claim C7 (amended): a failing hardware write surfaces the error to the
immediate caller of the write (the ramp reports failure) and does not update the
channel's CommandedAngle; and the failure propagates — once a primitive fails,
the remaining primitives of the phase never execute, so the gait loop iteration
aborts instead of continuing. -/
theorem C7_write_failure_semantics (bad : Nat → Bool) (σ : ServoState)
    (evs : List Ev) (ch : Nat) (a : Int) (hbad : bad ch = true) :
    (execEvents bad σ evs).1 ch = σ ch ∧
      (Ev.write ch a ∈ evs → (execEvents bad σ evs).2 = false) ∧
      ∀ (p : Prim) (rest : List Prim), (runPrim bad σ p).2 = false →
        runPrims bad σ (p :: rest) = ((runPrim bad σ p).1, false) := by
  refine ⟨execEvents_preserves_bad bad σ evs ch hbad, ?_, ?_⟩
  · intro hmem
    exact execEvents_fails bad σ evs ch a hbad hmem
  · intro p rest hfail
    simp [runPrims, hfail]

/-- Claim C7 as stated is false on its third conjunct: with LF_KNEE unreachable,
the first failing write aborts the whole trot phase (nothing in the gait path
catches the exception) — the stance push never runs and RF_HIP stays at 63,
whereas the same phase with healthy hardware completes and drives RF_HIP to 35.
The loop iteration does not continue past the error. -/
theorem C7_counterexample :
    (runPrims badLF sigmaStance (trot_step_forward_sync DIAG_A DIAG_B)).2 = false ∧
      (runPrims badLF sigmaStance (trot_step_forward_sync DIAG_A DIAG_B)).1 RF_HIP =
        some 63 ∧
      (runPrims badLF sigmaStance (trot_step_forward_sync DIAG_A DIAG_B)).1 LF_KNEE =
        some 124 ∧
      (runPrims (fun _ => false) sigmaStance
        (trot_step_forward_sync DIAG_A DIAG_B)).2 = true ∧
      (runPrims (fun _ => false) sigmaStance
        (trot_step_forward_sync DIAG_A DIAG_B)).1 RF_HIP = some 35 := by
  refine ⟨by decide, by decide, by decide, by decide, by decide⟩

theorem C7_witness :
    (execEvents badLF sigmaStance
        (primEvents sigmaStance (set_knee_pair DIAG_A 132))).1 LF_KNEE =
      sigmaStance LF_KNEE ∧
      (execEvents badLF sigmaStance
        (primEvents sigmaStance (set_knee_pair DIAG_A 132))).2 = false ∧
      runPrims badLF sigmaStance [set_knee_pair DIAG_A 132] =
        ((runPrim badLF sigmaStance (set_knee_pair DIAG_A 132)).1, false) := by
  have h := C7_write_failure_semantics badLF sigmaStance
    (primEvents sigmaStance (set_knee_pair DIAG_A 132)) LF_KNEE 127 rfl
  exact ⟨h.1, h.2.1 (by decide), h.2.2 (set_knee_pair DIAG_A 132) [] (by decide)⟩

lemma applyEvents_id_of_writes_current (l : List (Nat × Int)) :
    ∀ (σ : ServoState), (∀ q ∈ l, σ q.1 = some q.2) →
      ∀ c, applyEvents σ (l.map (fun q => Ev.write q.1 q.2)) c = σ c := by
  induction l with
  | nil =>
    intro σ _ c
    rfl
  | cons q rest ih =>
    intro σ h c
    rw [List.map_cons]
    show applyEvents (writeServo σ q.1 q.2) (rest.map (fun z => Ev.write z.1 z.2)) c = σ c
    have hpt := writeServo_self_id σ q.1 q.2 (h q (List.mem_cons_self _ _))
    rw [applyEvents_congr _ σ _ c hpt]
    exact ih σ (fun z hz => h z (List.mem_cons_of_mem _ hz)) c

/-- A `_ramp_sync` call whose every channel is already commanded at its
(inversion-adjusted) target emits only the final exact-snap writes and leaves
every channel's commanded angle unchanged in value. -/
lemma rampSync_noop (σ : ServoState) (inv : Nat → Bool) (chs : List Nat)
    (traws : List Int) (step : Nat)
    (h : ∀ p ∈ chs.zip traws, σ p.1 = some (applyInvert inv p.1 p.2)) :
    rampSync σ inv chs traws step =
      (chs.zip traws).map (fun p => Ev.write p.1 (applyInvert inv p.1 p.2)) ∧
      ∀ c, applyEvents σ (rampSync σ inv chs traws step) c = σ c := by
  have hcur : ∀ p ∈ chs.zip traws,
      currentAngle σ inv p.1 p.2 = applyInvert inv p.1 p.2 := by
    intro p hp
    unfold currentAngle
    rw [h p hp]
  have harr : ∀ e ∈ syncEntries σ inv chs traws, e.2.1 = e.2.2 := by
    intro e he
    unfold syncEntries at he
    rw [List.mem_map] at he
    obtain ⟨p, hp, rfl⟩ := he
    exact hcur p hp
  have hmax : maxSteps step (syncEntries σ inv chs traws) = 0 := by
    unfold maxSteps
    apply foldl_max_all_zero
    intro e he
    rw [harr e he]
    simp [ceilSteps_zero]
  have htr : rampSync σ inv chs traws step =
      (chs.zip traws).map (fun p => Ev.write p.1 (applyInvert inv p.1 p.2)) := by
    rw [rampSync_eq_body_snaps]
    rw [show rampSyncBody σ inv chs traws step =
      (syncLoop step (maxSteps step (syncEntries σ inv chs traws))
        (syncEntries σ inv chs traws)).1 from rfl]
    rw [hmax]
    rw [show (syncLoop step 0 (syncEntries σ inv chs traws)).1 = [] from rfl]
    rw [List.nil_append]
    have hsn : ∀ e ∈ syncEntries σ inv chs traws,
        Ev.write e.1 e.2.2 = Ev.write e.1 e.2.2 := fun _ _ => rfl
    unfold syncEntries
    rw [List.map_map]
    apply List.map_congr_left
    intro p hp
    simp only [Function.comp_apply]
  constructor
  · exact htr
  · intro c
    rw [htr]
    have hmm : (chs.zip traws).map (fun p => Ev.write p.1 (applyInvert inv p.1 p.2)) =
        ((chs.zip traws).map (fun p => (p.1, applyInvert inv p.1 p.2))).map
          (fun q => Ev.write q.1 q.2) := by
      rw [List.map_map]
      rfl
    rw [hmm]
    apply applyEvents_id_of_writes_current
    intro q hq
    rw [List.mem_map] at hq
    obtain ⟨p, hp, rfl⟩ := hq
    exact h p hp

/-- Claim C8: calling the stop verb (and hence the shared `setup()` used by the
neutral verb) when every hip is already commanded at the neutral angle and every
knee at the knee-down angle clears the flags and performs writes — eight of
them, the exact-snap re-writes — but leaves every channel's CommandedAngle
unchanged in value. -/
theorem C8_stop_neutral_idempotent (f : Flags) (σ : ServoState)
    (hk : ∀ ch ∈ ALL_KNEES, σ ch = some (applyInvert INVERT_KNEE ch KNEE_DOWN))
    (hh : ∀ ch ∈ ALL_HIPS, σ ch = some (applyInvert INVERT_HIP ch HIP_NEUTRAL)) :
    (∀ c, applyEvents σ (stop_route f σ).2 c = σ c) ∧
      (stop_route f σ).2.countP (fun e => !(isSleep e)) = 8 ∧
      (stop_route f σ).1 = allFlagsFalse := by
  have hkz : ∀ p ∈ ALL_KNEES.zip (List.replicate 4 KNEE_DOWN),
      σ p.1 = some (applyInvert INVERT_KNEE p.1 p.2) := by
    intro p hp
    obtain ⟨h1, h2⟩ := List.of_mem_zip hp
    rw [List.eq_of_mem_replicate h2]
    exact hk p.1 h1
  have hn1 := rampSync_noop σ INVERT_KNEE ALL_KNEES (List.replicate 4 KNEE_DOWN)
    RAMP_STEP hkz
  have hpt1 : ∀ c, applyEvents σ (plant_all_events σ) c = σ c := hn1.2
  have hhz : ∀ p ∈ ALL_HIPS.zip (List.replicate 4 HIP_NEUTRAL),
      applyEvents σ (plant_all_events σ) p.1 =
        some (applyInvert INVERT_HIP p.1 p.2) := by
    intro p hp
    obtain ⟨h1, h2⟩ := List.of_mem_zip hp
    rw [List.eq_of_mem_replicate h2, hpt1 p.1]
    exact hh p.1 h1
  have hn2 := rampSync_noop (applyEvents σ (plant_all_events σ)) INVERT_HIP ALL_HIPS
    (List.replicate 4 HIP_NEUTRAL) RAMP_STEP hhz
  refine ⟨?_, ?_, rfl⟩
  · intro c
    show applyEvents σ (setup_events σ) c = σ c
    unfold setup_events
    rw [applyEvents_append, applyEvents_append]
    rw [show applyEvents (applyEvents (applyEvents σ (plant_all_events σ))
      (hips_all_events (applyEvents σ (plant_all_events σ)) HIP_NEUTRAL)) [Ev.sleep] =
      applyEvents (applyEvents σ (plant_all_events σ))
        (hips_all_events (applyEvents σ (plant_all_events σ)) HIP_NEUTRAL) from rfl]
    rw [show hips_all_events (applyEvents σ (plant_all_events σ)) HIP_NEUTRAL =
      rampSync (applyEvents σ (plant_all_events σ)) INVERT_HIP ALL_HIPS
        (List.replicate 4 HIP_NEUTRAL) RAMP_STEP from rfl]
    rw [hn2.2 c]
    exact hpt1 c
  · show (setup_events σ).countP (fun e => !(isSleep e)) = 8
    unfold setup_events
    rw [List.countP_append, List.countP_append]
    have hc1 : (plant_all_events σ).countP (fun e => !(isSleep e)) = 4 := by
      rw [show plant_all_events σ = rampSync σ INVERT_KNEE ALL_KNEES
        (List.replicate 4 KNEE_DOWN) RAMP_STEP from rfl, hn1.1]
      rw [List.countP_eq_length.mpr]
      · rfl
      · intro ev hev
        rw [List.mem_map] at hev
        obtain ⟨p, _, rfl⟩ := hev
        rfl
    have hc2 : (hips_all_events (applyEvents σ (plant_all_events σ))
        HIP_NEUTRAL).countP (fun e => !(isSleep e)) = 4 := by
      rw [show hips_all_events (applyEvents σ (plant_all_events σ)) HIP_NEUTRAL =
        rampSync (applyEvents σ (plant_all_events σ)) INVERT_HIP ALL_HIPS
          (List.replicate 4 HIP_NEUTRAL) RAMP_STEP from rfl, hn2.1]
      rw [List.countP_eq_length.mpr]
      · rfl
      · intro ev hev
        rw [List.mem_map] at hev
        obtain ⟨p, _, rfl⟩ := hev
        rfl
    rw [hc1, hc2]
    rfl

theorem C8_witness :
    applyEvents sigmaNeutral
        (stop_route ⟨false, false, false, false, false, true⟩ sigmaNeutral).2
        LF_KNEE = sigmaNeutral LF_KNEE ∧
      (stop_route ⟨false, false, false, false, false, true⟩ sigmaNeutral).2.countP
        (fun e => !(isSleep e)) = 8 ∧
      (stop_route ⟨false, false, false, false, false, true⟩ sigmaNeutral).1 =
        allFlagsFalse := by
  have h := C8_stop_neutral_idempotent ⟨false, false, false, false, false, true⟩
    sigmaNeutral (by decide) (by decide)
  exact ⟨h.1 LF_KNEE, h.2.1, h.2.2⟩

theorem C1_witness :
    sleepCount (rampSyncBody sigmaTrot INVERT_KNEE [LF_KNEE, RF_KNEE] [86, 124] 3) =
        13 ∧
      (writesTo RF_KNEE
        (rampSyncBody sigmaTrot INVERT_KNEE [LF_KNEE, RF_KNEE] [86, 124] 3)).length =
        0 ∧
      (writesTo LF_KNEE
        (rampSyncBody sigmaTrot INVERT_KNEE [LF_KNEE, RF_KNEE] [86, 124] 3)).length =
        13 := by
  have h := C1_ramp_many_lockstep sigmaTrot INVERT_KNEE [LF_KNEE, RF_KNEE] [86, 124] 3
    (by decide) (by decide) rfl (by decide)
  refine ⟨?_, ?_, ?_⟩
  · exact h.1.1.trans (by decide)
  · exact ((h.2 (RF_KNEE, 56, 56) (by decide)).1).trans (by decide)
  · exact ((h.2 (LF_KNEE, 124, 86) (by decide)).1).trans (by decide)

end Robot
